import Mathlib

/-!
Verification of the `django-slack` repository (oditorium/django-slack).

This file gives a shallow embedding, in Lean, of the two core subsystems of
the repository and settles the specified properties against it:

* the hierarchical namespaced key-value store (`slack/models/keyvalue.py`):
  `NullKeyValueStore`, `KeyValueStore` with its dict interface
  (`__getitem__`, `__setitem__`, `__delitem__`, `__contains__`, `__len__`,
  `keys`, `values`, `items`, `clear`, `as_dict`) and the class-level
  operations (`kvs_exists`, `kvs_update`);

* the Slack protocol layer (`slack/slack.py`): the `@slack_augment`
  access-control decorator with `_Http403`, the `SlackResponseText`
  serialization, the `url` helper, the `SlackViewBase.dispatch` routing and
  the argument-parsing wrapper `SlackViewBase.parse`.

Python strings that are processed character by character (command text,
parser tokens) are embedded as `List Char`; strings that are only compared
or concatenated are embedded as `String`.  Python `None`-able values are
embedded as `Option`.  Python exceptions are embedded as `Except`.
-/

/-! ## Key-value store: data model

A persisted segment owns a list of `(key, value)` entries (`KeyValuePair`
rows; the `value` column is nullable, hence `Option String`).  The parent
link (`_parent`) is either `None` or another store object; the sentinel
`NullKeyValueStore` is a separate constructor.  Backend row order is the
insertion order of the rows, so entries are a list.
-/

/-- Entries of one storage segment: the `KeyValuePair` rows `(key, value)`
with nullable value, in backend order. -/
abbrev Entries := List (String × Option String)

/-- A key-value store object: either the `NullKeyValueStore` sentinel or a
`KeyValueStore` segment with its local entries and its `_parent` field
(`none` embeds Python `None`). -/
inductive KVS where
  | null : KVS
  | seg (entries : Entries) (par : Option KVS) : KVS

/-- Errors raised by the store: Python `KeyError`, `RuntimeError(msg)`, and
the Django ORM errors `DoesNotExist` / `MultipleObjectsReturned` raised by
`keyvaluepair_set.get`. -/
inductive KVErr where
  | keyError : KVErr
  | runtimeError (msg : String) : KVErr
  | doesNotExist : KVErr
  | multipleObjectsReturned : KVErr
deriving DecidableEq

/-- Backend method `KeyValueStore._item`: `keyvaluepair_set.get(key=key)` —
returns the value of the unique row with this key, `DoesNotExist` when there
is none, `MultipleObjectsReturned` when there are several. -/
def _item (es : Entries) (key : String) : Except KVErr (Option String) :=
  match es.filter (fun e => e.1 = key) with
  | [] => .error .doesNotExist
  | [e] => .ok e.2
  | _ => .error .multipleObjectsReturned

/-- Model of `KeyValueStore.__getitem__`: local lookup, falling through to the parent
on any `_item` failure (the `except:` there is bare); raises `KeyError` when
there is no parent.  `NullKeyValueStore.__getitem__` raises `KeyError`. -/
def getItem : KVS → String → Except KVErr (Option String)
  | .null, _ => .error .keyError
  | .seg es par, key =>
    match _item es key with
    | .ok v => .ok v
    | .error _ =>
      match par with
      | none => .error .keyError
      | some p => getItem p key

/-- The local-write step of `KeyValueStore.__setitem__`: replace the value
of the unique row with this key if `_item` finds it, otherwise (bare
`except:`) create a new row at the end. -/
def upsert (es : Entries) (key : String) (value : Option String) : Entries :=
  match _item es key with
  | .ok _ => es.map (fun e => if e.1 = key then (key, value) else e)
  | .error _ => es ++ [(key, value)]

/-- Model of `__setitem__`: always writes locally, never touches the parent.
`NullKeyValueStore.__setitem__` raises a `RuntimeError` (the source message
reads: can t set items in the null value store). -/
def setItem : KVS → String → Option String → Except KVErr KVS
  | .null, _, _ => .error (.runtimeError "cannot set items in the null value store")
  | .seg es par, key, value => .ok (.seg (upsert es key value) par)

/-- Model of `__delitem__`: local only; `DoesNotExist` is converted to `KeyError`,
other `_item` failures propagate.  `NullKeyValueStore.__delitem__` raises
`KeyError`. -/
def delItem : KVS → String → Except KVErr KVS
  | .null, _ => .error .keyError
  | .seg es par, key =>
    match _item es key with
    | .ok _ => .ok (.seg (es.eraseP (fun e => e.1 = key)) par)
    | .error .doesNotExist => .error .keyError
    | .error e => .error e

/-- Model of `__contains__`: local or ancestor existence; only `DoesNotExist` makes
it consult the parent.  `NullKeyValueStore.__contains__` is `False`. -/
def kvContains : KVS → String → Except KVErr Bool
  | .null, _ => .ok false
  | .seg es par, key =>
    match _item es key with
    | .ok _ => .ok true
    | .error .doesNotExist =>
      match par with
      | none => .ok false
      | some p => kvContains p key
    | .error e => .error e

/-- Model of `__len__`: local row count plus the parent length when `_parent` is not
`None`.  `NullKeyValueStore.__len__` is `0`. -/
def klen : KVS → Nat
  | .null => 0
  | .seg es none => es.length
  | .seg es (some p) => es.length + klen p

/-- Model of `keys()`: local keys chained with the parent keys. -/
def kkeys : KVS → List String
  | .null => []
  | .seg es none => es.map Prod.fst
  | .seg es (some p) => es.map Prod.fst ++ kkeys p

/-- Model of `values()`: local values chained with the parent values. -/
def kvalues : KVS → List (Option String)
  | .null => []
  | .seg es none => es.map Prod.snd
  | .seg es (some p) => es.map Prod.snd ++ kvalues p

/-- Model of `items()`: local pairs chained with the parent pairs. -/
def kitems : KVS → Entries
  | .null => []
  | .seg es none => es
  | .seg es (some p) => es ++ kitems p

/-- Model of `clear()`: deletes all local rows; on the null store it just returns
`None` (it does not raise). -/
def kclear : KVS → Except KVErr KVS
  | .null => .ok .null
  | .seg _ par => .ok (.seg [] par)

/-- Model of `get(key, default)`: `self[key]`, with only `KeyError` converted to the
default (the null store override returns the default directly, which
coincides with this since its `__getitem__` raises `KeyError`). -/
def getOr (s : KVS) (key : String) (dflt : Option String) : Except KVErr (Option String) :=
  match getItem s key with
  | .ok v => .ok v
  | .error .keyError => .ok dflt
  | .error e => .error e

/-- The `parent` property of `KeyValueStoreBase`: the `_parent` field when
set, else a `NullKeyValueStore`; the null store is its own parent. -/
def parentOf : KVS → KVS
  | .null => .null
  | .seg _ none => .null
  | .seg _ (some p) => p

/-- The `height` property: `0` on the null store, `1 + parent.height` on a
segment (the parent being the `parent` property above). -/
def height : KVS → Nat
  | .null => 0
  | .seg _ none => 1
  | .seg _ (some p) => 1 + height p

/-! ## Python dict semantics (for `as_dict`)

`as_dict` builds a Python dict from the local rows and then calls
`dict.update` with the parent dict.  A Python dict is embedded as an
association list with unique keys in insertion order: assignment to an
existing key overwrites in place, assignment of a fresh key appends. -/

/-- Python dict assignment `d[key] = value`. -/
def dictSet (d : Entries) (key : String) (value : Option String) : Entries :=
  if d.any (fun e => e.1 = key) then d.map (fun e => if e.1 = key then (key, value) else e)
  else d ++ [(key, value)]

/-- Python dict comprehension over the rows (in row order). -/
def dictOf (es : Entries) : Entries :=
  es.foldl (fun d e => dictSet d e.1 e.2) []

/-- Python `d.update(other)`: assign every pair of `other` into `d`, in
order. -/
def dictUpdate (d other : Entries) : Entries :=
  other.foldl (fun acc e => dictSet acc e.1 e.2) d

/-- Dict lookup `d[key]` as an `Option` (first matching entry; on the
unique-keys representation this is the dict access). -/
def dlookup : Entries → String → Option (Option String)
  | [], _ => none
  | e :: t, key => if e.1 = key then some e.2 else dlookup t key

/-- Model of `as_dict`: the local dict, then — when `_parent` is set — updated with
the parent chain dict via `this.update(parents)`.  The null store returns
the empty dict. -/
def as_dict : KVS → Entries
  | .null => []
  | .seg es none => dictOf es
  | .seg es (some p) => dictUpdate (dictOf es) (as_dict p)

/-! ## Store-level operations (`kvs_exists`, `kvs_update`)

The table of segments is embedded as an association list from namespace to
local entries (`_namespace` is a unique column).  `kvs_update` only ever
calls `kvs_get` without a hierarchy separator, so no parent is involved
here. -/

/-- The whole persisted table: namespace to local entries. -/
abbrev Store := List (String × Entries)

/-- Model of `KeyValueStoreBase.RAISE` policy constant. -/
def RAISE : Nat := 0

/-- Model of `KeyValueStoreBase.CLEAR` policy constant. -/
def CLEAR : Nat := 1

/-- Model of `KeyValueStoreBase.UPDATE` policy constant. -/
def UPDATE : Nat := 2

/-- Model of `kvs_exists`: `None` normalizes to the root namespace, then a pure
existence check on the unique `_namespace` column. -/
def kvs_exists (st : Store) (namespace_ : Option String) : Bool :=
  st.any (fun e => e.1 = namespace_.getD "")

/-- The local entries stored under a namespace (empty when absent; the
namespace column is unique, so the first match is the row). -/
def storeEntries : Store → String → Entries
  | [], _ => []
  | e :: t, n => if e.1 = n then e.2 else storeEntries t n

/-- Replace (or create) the entries stored under a namespace. -/
def storeSetEntries (st : Store) (n : String) (es : Entries) : Store :=
  if st.any (fun e => e.1 = n) then st.map (fun e => if e.1 = n then (n, es) else e)
  else st ++ [(n, es)]

/-- The `for key in dct: kvs[key] = dct[key]` loop of `kvs_update`: apply
the dict pairs, in insertion order, through `__setitem__`. -/
def applyDict (es : Entries) (dct : Entries) : Entries :=
  dct.foldl (fun acc e => upsert acc e.1 e.2) es

/-- Model of `kvs_update(namespace, dct, action_if_exists)`: normalizes the `None`
defaults, raises `RuntimeError` under `RAISE` when the namespace exists
(before any mutation), clears the existing local entries first under
`CLEAR`, then fetches-or-creates the segment and assigns every pair of
`dct` into it in order (so under `UPDATE`, and any other non-`RAISE`
non-`CLEAR` value, the new values win on key collision). -/
def kvs_update (st : Store) (namespace_ : Option String) (dct : Option Entries)
    (action_if_exists : Option Nat) : Except String Store :=
  let n := namespace_.getD ""
  let d := dct.getD []
  let act := action_if_exists.getD RAISE
  if kvs_exists st (some n) then
    if act = RAISE then .error ("namespace " ++ n ++ " already exists")
    else
      let st1 := if act = CLEAR then storeSetEntries st n [] else st
      .ok (storeSetEntries st1 n (applyDict (storeEntries st1 n) d))
  else
    .ok (storeSetEntries st n (applyDict [] d))

/-! ## `slack.py`: access control (`@slack_augment`, `_Http403`) -/

/-- A Django `HttpResponse`, reduced to the fields the protocol layer
sets. -/
structure HttpResp where
  body : String
  status : Nat
deriving DecidableEq

/-- Model of `_Http403(message=None)`: a 403 response, with body defaulting to the
fixed access-denied text. -/
def _Http403 (message : Option String) : HttpResp :=
  { body := message.getD "access denied", status := 403 }

/-- One value of the `SLACK_ACCESS` table: either a required team id, or
the Python literal `True`, meaning every team matches. -/
inductive AccessRule where
  | wildcard : AccessRule
  | team (tid : String) : AccessRule
deriving DecidableEq

/-- Model of `settings.SLACK_ACCESS[token]` as an `Option` (the `SLACK_ACCESS`
setting is a Python dict, so keys are unique and the first match is the
match). -/
def slackAccessLookup (access : List (String × AccessRule)) (token : String) :
    Option AccessRule :=
  (access.find? (fun e => e.1 = token)).map Prod.snd

/-- Outcome of the wrapped view: either the wrapped handler was invoked (the
constructor carries its response), or the request was denied before the
handler ran (the constructor carries only the 403 response — no handler
value occurs in it). -/
inductive AuthOutcome (α : Type) where
  | denied (resp : HttpResp) : AuthOutcome α
  | handled (resp : α) : AuthOutcome α
deriving DecidableEq

/-- The `wrapped` function produced by the `@slack_augment` decorator.
`token` and `team_id` are the `POST` fields (absent fields raise inside the
`try`, which the bare `except:` turns into `_Http403()`, as does a missing
`SLACK_ACCESS` entry).  A wildcard rule never reads the team id; a team rule
compares it for equality; every failure path returns `_Http403()` without
touching `handler`. -/
def slack_augment {α : Type} (access : List (String × AccessRule))
    (token team_id : Option String) (handler : α) : AuthOutcome α :=
  match token with
  | none => .denied (_Http403 none)
  | some t =>
    match slackAccessLookup access t with
    | none => .denied (_Http403 none)
    | some .wildcard => .handled handler
    | some (.team tid) =>
      match team_id with
      | none => .denied (_Http403 none)
      | some reqTid => if reqTid = tid then .handled handler else .denied (_Http403 none)

/-! ## `slack.py`: responses (`SlackResponseText`, `url`) -/

/-- Model of `SlackResponseText`: the text-only response object (its constructor
takes exactly the response text). -/
structure SlackResponseText where
  response_text : String
deriving DecidableEq

/-- Model of `SlackResponseText.as_dict`: the wire dictionary, embedded as an
association list of string fields. -/
def SlackResponseText.as_dict (r : SlackResponseText) : List (String × String) :=
  [("text", r.response_text)]

/-- Model of `SlackResponseBase.url(url, friendly=None)`: inline-link markup; any
falsy `friendly` (absent, `None`, empty string) takes the first branch. -/
def SlackResponseBase.url (u : String) (friendly : Option String) : String :=
  match friendly with
  | none => "<" ++ u ++ ">"
  | some f => if f = "" then "<" ++ u ++ ">" else "<" ++ u ++ "|" ++ f ++ ">"

/-! ## `slack.py`: command dispatch (`SlackViewBase.dispatch`)

The command text is processed character by character, so it is embedded as
`List Char`.  `dispatch` does `re.split` with the single-character pattern
`[^a-zA-Z]` and `maxsplit=1`: the first token is the maximal alphabetic
prefix, and the remainder is everything after the first non-alphabetic
character (only that one character is consumed).  The registered handlers
are embedded as the list of `x` for which a `run_x` method exists. -/

/-- The character class `[a-zA-Z]` of the dispatch regex. -/
def isCmdAlpha (c : Char) : Bool :=
  (decide ('a' ≤ c) && decide (c ≤ 'z')) || (decide ('A' ≤ c) && decide (c ≤ 'Z'))

/-- Model of the dispatch split: `re.split` with the one-character pattern
`[^a-zA-Z]` and `maxsplit=1`, reduced to the pair the
dispatcher uses: `splt[0]`, and `splt[1]` with the `IndexError` on a
one-element result embedded as the empty remainder (the code passes `""` to
the parser in that case). -/
def splitCmd (text : List Char) : List Char × List Char :=
  (text.takeWhile isCmdAlpha, (text.dropWhile isCmdAlpha).drop 1)

/-- Modelled from the spec wording, for comparison only: splitting on the
first *run* of non-alphabetic characters, so that the whole run is consumed
and the remainder starts at the next alphabetic character. -/
def splitCmdSpecRun (text : List Char) : List Char × List Char :=
  (text.takeWhile isCmdAlpha,
    (text.dropWhile isCmdAlpha).dropWhile (fun c => !isCmdAlpha c))

/-- The routing outcome of `dispatch`: either a `run_<name>` handler is
invoked with a parser primed with the remainder, or `unknown_command` is
invoked with the original subcommand string and such a parser. -/
inductive DispatchResult where
  | handledBy (name : List Char) (remainder : List Char) : DispatchResult
  | unknownCmd (subcommand : List Char) (remainder : List Char) : DispatchResult
deriving DecidableEq

/-- Model of `SlackViewBase.dispatch`: split the text, look up
`run_<subcommand.lower()>` among the registered handlers, and fall back to
`unknown_command(subcommand, parser)` on `AttributeError`. -/
def dispatch (handlers : List (List Char)) (text : List Char) : DispatchResult :=
  let sub := (splitCmd text).1
  let rem := (splitCmd text).2
  if (sub.map Char.toLower) ∈ handlers then .handledBy (sub.map Char.toLower) rem
  else .unknownCmd sub rem

/-! ## `slack.py`: argument parsing (`SlackViewBase.parse`)

The function `parse` splits the remainder on single spaces (a lone empty
token normalized to no tokens), declares a trailing `posn` positional that
collects everything left over, and runs
the (stdlib, external) `argparse` machinery inside a `try`.  The
`_ArgumentParser` subclass records the message and raises `SystemExit`
instead of exiting, and `parse` turns that into a result object that has
only the attributes `error=True` and `errmsg` — in particular no `posn`.

The `argparse` run itself is modelled from its documented behaviour for the
configurations this code base uses: flag-style (zero-argument, count-like)
declared options matched by exact option string, the automatic `-h and --help`
options (whose `print_help` override records an empty message), the `--`
separator after which everything is positional, and the negative-number
rule under which a token like `-12` or `-1.5` counts as positional.
Abbreviated long options and grouped short flags are not modelled. -/

/-- Python `s.split(sep)` for a single-character separator: splits at every
occurrence, keeping empty pieces (so `"".split` gives one empty piece). -/
def splitOnCh (sep : Char) : List Char → List (List Char)
  | [] => [[]]
  | c :: rest =>
    match splitOnCh sep rest with
    | [] => [[c]]
    | h :: t => if c = sep then [] :: h :: t else (c :: h) :: t

/-- The `argparse` negative-number test `^-\d+$|^-\d*\.\d+$`. -/
def isNegNumTok (t : List Char) : Bool :=
  match t with
  | '-' :: r =>
    (!r.isEmpty && r.all Char.isDigit) ||
      (match splitOnCh '.' r with
       | [a, b] => a.all Char.isDigit && !b.isEmpty && b.all Char.isDigit
       | _ => false)
  | _ => false

/-- Whether `argparse` treats a token as an optional: it starts with the
prefix character, is not the bare `-`, and does not look like a negative
number (no registered option here looks like one). -/
def isOptionTok (t : List Char) : Bool :=
  match t with
  | '-' :: r => !r.isEmpty && !isNegNumTok t
  | _ => false

/-- The `argparse` run over the token list (`afterSep` is true once a `--`
separator has been consumed): declared flags are consumed, `-h and --help`
raises with the empty recorded message, an undeclared optional raises with
the unrecognized-arguments message, everything else lands in `posn` in
order. -/
def parse_args (flags : List (List Char)) : List (List Char) → Bool →
    Except (List Char) (List (List Char))
  | [], _ => .ok []
  | t :: ts, afterSep =>
    if afterSep then
      match parse_args flags ts true with
      | .ok p => .ok (t :: p)
      | .error e => .error e
    else if t = ['-', '-'] then parse_args flags ts true
    else if isOptionTok t then
      if t ∈ flags then parse_args flags ts false
      else if t = ['-', 'h'] ∨ t = "--help".toList then .error []
      else .error ("unrecognized arguments: ".toList ++ t)
    else
      match parse_args flags ts false with
      | .ok p => .ok (t :: p)
      | .error e => .error e

/-- The result object of `SlackViewBase.parse`.  Attributes a Python
`Namespace` may lack are `Option`-valued: on success `errmsg` is absent
(`none`), on failure `posn` is absent — reading an absent attribute raises
`AttributeError`. -/
structure ParseObj where
  error : Bool
  errmsg : Option (List Char) := none
  posn : Option (List (List Char)) := none
deriving DecidableEq

/-- Model of the Python split of the remainder on single spaces, with the
one-empty-piece result normalized to an empty token list. -/
def splitParams (remainder : List Char) : List (List Char) :=
  let ps := splitOnCh ' ' remainder
  if ps = [[]] then [] else ps

/-- Model of `SlackViewBase.parse`: run the parser inside `try`, catching
`SystemExit`; a success carries `error=False` and the collected `posn`, a
failure carries `error=True` and the recorded `errmsg` only. -/
def SlackViewBase.parse (flags : List (List Char)) (remainder : List Char) : ParseObj :=
  match parse_args flags (splitParams remainder) false with
  | .ok p => { error := false, posn := some p }
  | .error m => { error := true, errmsg := some m }

/-! ## Theorems -/

/-- C1: for every access table, rule lookup and request: a wildcard rule
authenticates every team id (present or absent); a specific-team rule
authenticates exactly the requests whose team id equals it; an unregistered
token, or a missing token or (required) team field, is denied with the
fixed 403 access-denied response, the wrapped handler never being invoked
(the `denied` outcome is produced without touching `handler`). -/
theorem slack_augment_access {α : Type} (access : List (String × AccessRule))
    (t : String) (team_id : Option String) (handler : α) :
    _Http403 none = { body := "access denied", status := 403 } ∧
    (slackAccessLookup access t = some .wildcard →
      slack_augment access (some t) team_id handler = .handled handler) ∧
    (∀ tid0, slackAccessLookup access t = some (.team tid0) →
      slack_augment access (some t) team_id handler =
        if team_id = some tid0 then .handled handler else .denied (_Http403 none)) ∧
    (slackAccessLookup access t = none →
      slack_augment access (some t) team_id handler = .denied (_Http403 none)) ∧
    slack_augment access none team_id handler = .denied (_Http403 none) := by
  refine ⟨rfl, ?_, ?_, ?_, rfl⟩
  · intro hw
    simp [slack_augment, hw]
  · intro tid0 ht
    simp only [slack_augment, ht]
    cases team_id with
    | none => simp
    | some r =>
      by_cases hr : r = tid0 <;> simp [hr]
  · intro hn
    simp [slack_augment, hn]

/-- Witness for C1 at a concrete table: wildcard token passes with any
team, team-bound token passes exactly with its team, unknown token and
missing token are denied. -/
theorem slack_augment_access_witness :
    slack_augment [("tw", AccessRule.wildcard), ("tt", AccessRule.team "T1")]
      (some "tw") (some "TX") "resp" = .handled "resp" ∧
    slack_augment [("tw", AccessRule.wildcard), ("tt", AccessRule.team "T1")]
      (some "tt") (some "T1") "resp" = .handled "resp" ∧
    slack_augment [("tw", AccessRule.wildcard), ("tt", AccessRule.team "T1")]
      (some "tt") (some "T2") "resp" = .denied (_Http403 none) ∧
    slack_augment [("tw", AccessRule.wildcard), ("tt", AccessRule.team "T1")]
      (some "nope") (some "T1") "resp" = .denied (_Http403 none) := by
  refine ⟨?_, ?_, ?_, ?_⟩
  · exact (slack_augment_access _ "tw" (some "TX") "resp").2.1 rfl
  · have h := (slack_augment_access
      [("tw", AccessRule.wildcard), ("tt", AccessRule.team "T1")]
      "tt" (some "T1") "resp").2.2.1 "T1" rfl
    simpa using h
  · have h := (slack_augment_access
      [("tw", AccessRule.wildcard), ("tt", AccessRule.team "T1")]
      "tt" (some "T2") "resp").2.2.1 "T1" rfl
    simpa using h
  · exact (slack_augment_access _ "nope" (some "T1") "resp").2.2.2.1 rfl

/-- C3 (code versus its own test suite): serializing the plain-text
response `SlackResponseText("the response")` yields only the text field —
there is no `response_type` entry at all, where the test suite
(`tests_slack.py`, `test_slack_response_text`) asserts
asserts that the `response_type` entry equals the text `ephemeral`. -/
theorem slackResponseText_as_dict_no_response_type :
    SlackResponseText.as_dict { response_text := "the response" } =
      [("text", "the response")] ∧
    (SlackResponseText.as_dict { response_text := "the response" }).find?
      (fun e => e.1 = "response_type") = none :=
  ⟨rfl, rfl⟩

/-- Helper: `__len__` agrees with the length of the `keys()` chain. -/
theorem klen_eq_kkeys_length : ∀ s : KVS, klen s = (kkeys s).length
  | .null => rfl
  | .seg es none => by simp [klen, kkeys]
  | .seg es (some p) => by simp [klen, kkeys, klen_eq_kkeys_length p]

/-- C9: the length of a segment with a parent is its local entry count plus
the parent length, and without a parent it is the local entry count; length
always equals the length of the (non-deduplicated) `keys()` chain, so keys
shadowed by ancestors are counted once per level. -/
theorem klen_spec :
    (∀ (es : Entries) (p : KVS), klen (.seg es (some p)) = es.length + klen p) ∧
    (∀ es : Entries, klen (.seg es none) = es.length) ∧
    (∀ s : KVS, klen s = (kkeys s).length) :=
  ⟨fun _ _ => rfl, fun _ => rfl, klen_eq_kkeys_length⟩

/-- C8 (amended): the null store reads as empty (`get` yields the default,
containment is false, length 0, empty key/value/item iterations, empty
snapshot), setting an item raises the write-not-permitted `RuntimeError`,
deleting an item raises `KeyError` (not the write error), clearing is a
silent no-op (no error), the null store is its own parent with height 0,
and the height of every segment is 1 plus the height of its `parent`
property. -/
theorem null_store_spec :
    (∀ k d, getOr .null k d = .ok d) ∧
    (∀ k, getItem .null k = .error .keyError) ∧
    (∀ k, kvContains .null k = .ok false) ∧
    klen .null = 0 ∧
    kkeys .null = [] ∧
    kvalues .null = [] ∧
    kitems .null = [] ∧
    as_dict .null = [] ∧
    (∀ k v, setItem .null k v =
      .error (.runtimeError "cannot set items in the null value store")) ∧
    (∀ k, delItem .null k = .error .keyError) ∧
    kclear .null = .ok .null ∧
    parentOf .null = .null ∧
    height .null = 0 ∧
    (∀ (es : Entries) (par : Option KVS),
      height (.seg es par) = 1 + height (parentOf (.seg es par))) := by
  refine ⟨fun k d => rfl, fun k => rfl, fun k => rfl, rfl, rfl, rfl, rfl, rfl,
    fun k v => rfl, fun k => rfl, rfl, rfl, rfl, ?_⟩
  intro es par
  cases par <;> rfl

/-- Counterexample to C8 as stated: not every mutation of the null store
raises a write-not-permitted error — clearing succeeds silently, and
deletion raises a plain `KeyError` instead. -/
theorem null_store_mutation_cex :
    kclear .null = .ok .null ∧
    delItem .null "k" = .error .keyError ∧
    KVErr.keyError ≠ KVErr.runtimeError "cannot set items in the null value store" :=
  ⟨rfl, rfl, by decide⟩

/-- C10: the inline-link helper renders `<url>` for an absent or empty
label (never `<url|>`), and `<url|label>` for any non-empty label. -/
theorem url_spec (u : String) (f : String) (hf : f ≠ "") :
    SlackResponseBase.url u none = "<" ++ u ++ ">" ∧
    SlackResponseBase.url u (some "") = "<" ++ u ++ ">" ∧
    SlackResponseBase.url u (some f) = "<" ++ u ++ "|" ++ f ++ ">" ∧
    SlackResponseBase.url u none ≠ "<" ++ u ++ "|" ++ ">" := by
  refine ⟨rfl, rfl, ?_, ?_⟩
  · simp [SlackResponseBase.url, hf]
  · intro h
    have hl := congrArg String.length h
    simp [SlackResponseBase.url, String.length_append] at hl
    exact absurd hl (by decide)

/-- Witness for C10 at a concrete url and label. -/
theorem url_spec_witness :
    SlackResponseBase.url "https://my.server.com" (some "myserver") =
      "<https://my.server.com|myserver>" ∧
    SlackResponseBase.url "https://my.server.com" none = "<https://my.server.com>" := by
  have h := url_spec "https://my.server.com" "myserver" (by decide)
  exact ⟨h.2.2.1, h.1⟩

/-! ### Association-list lemmas for the dict and entry semantics -/

/-- Helper: in-place replacement of the entries keyed `k` does not change
the key column. -/
theorem keys_map_replace (d : Entries) (k : String) (v : Option String) :
    (d.map (fun e => if e.1 = k then (k, v) else e)).map Prod.fst = d.map Prod.fst := by
  induction d with
  | nil => rfl
  | cons e t ih =>
    by_cases he : e.1 = k
    · simp [he, ih]
    · simp [he, ih]

/-- Helper: lookup after in-place replacement of the entries keyed `k`. -/
theorem dlookup_map_replace (d : Entries) (k : String) (v : Option String) (q : String) :
    dlookup (d.map (fun e => if e.1 = k then (k, v) else e)) q =
      if q = k then (if d.any (fun e => e.1 = k) then some v else none)
      else dlookup d q := by
  induction d with
  | nil => simp [dlookup]
  | cons e t ih =>
    by_cases he : e.1 = k
    · by_cases hq : q = k
      · subst hq
        simp [dlookup, he]
      · have hkq : ¬ k = q := fun h => hq h.symm
        simp [dlookup, he, hq, hkq, ih]
    · by_cases heq : e.1 = q
      · have hqk : ¬ q = k := fun h => he (by rw [heq, h])
        simp [dlookup, he, heq, hqk]
      · by_cases hq : q = k
        · subst hq
          simp only [dlookup, List.map_cons, if_neg he, if_neg heq, List.any_cons]
          rw [ih]
          have hd : decide (e.1 = q) = false := by simp [he]
          simp only [hd, Bool.false_or, if_pos rfl]
        · simp [dlookup, he, heq, ih, hq]

/-- Helper: lookup in the absence of the key is `none`. -/
theorem dlookup_eq_none_of_not_mem (d : Entries) (k : String)
    (h : k ∉ d.map Prod.fst) : dlookup d k = none := by
  induction d with
  | nil => rfl
  | cons e t ih =>
    simp only [List.map_cons, List.mem_cons, not_or] at h
    have he : ¬ e.1 = k := fun hbe => h.1 hbe.symm
    simp [dlookup, he, ih h.2]

/-- Helper: lookup after appending a fresh key. -/
theorem dlookup_append_fresh (d : Entries) (k : String) (v : Option String) (q : String)
    (hany : d.any (fun e => e.1 = k) = false) :
    dlookup (d ++ [(k, v)]) q = if q = k then some v else dlookup d q := by
  induction d with
  | nil =>
    by_cases hq : q = k
    · simp [dlookup, hq]
    · have hkq : ¬ k = q := fun h => hq h.symm
      simp [dlookup, hq, hkq]
  | cons e t ih =>
    simp only [List.any_cons, Bool.or_eq_false_iff] at hany
    by_cases heq : e.1 = q
    · have hqk : ¬ q = k := by
        intro h
        rw [← heq] at h
        simp [h] at hany
      simp [dlookup, heq, hqk]
    · simp [dlookup, heq, ih hany.2]

/-- Helper: lookup after a Python dict assignment. -/
theorem dlookup_dictSet (d : Entries) (k : String) (v : Option String) (q : String) :
    dlookup (dictSet d k v) q = if q = k then some v else dlookup d q := by
  unfold dictSet
  by_cases hany : d.any (fun e => e.1 = k) = true
  · rw [if_pos hany, dlookup_map_replace]
    by_cases hq : q = k <;> simp [hq, hany]
  · rw [if_neg hany, dlookup_append_fresh d k v q (Bool.eq_false_iff.mpr hany)]

/-- Helper: a Python dict assignment preserves uniqueness of the keys. -/
theorem dictSet_keys_nodup (d : Entries) (k : String) (v : Option String)
    (h : (d.map Prod.fst).Nodup) : ((dictSet d k v).map Prod.fst).Nodup := by
  unfold dictSet
  by_cases hany : d.any (fun e => e.1 = k) = true
  · rw [if_pos hany, keys_map_replace]
    exact h
  · rw [if_neg hany]
    simp only [List.map_append, List.map_cons, List.map_nil, List.nodup_append]
    refine ⟨h, by simp, ?_⟩
    intro a ha hb
    simp only [List.mem_singleton] at hb
    subst hb
    rcases List.mem_map.mp ha with ⟨e, he, hek⟩
    exact hany (List.any_eq_true.mpr ⟨e, he, by simp [hek]⟩)

/-- Helper: folding Python dict assignments preserves key uniqueness. -/
theorem foldl_dictSet_keys_nodup :
    ∀ (l : Entries) (acc : Entries), (acc.map Prod.fst).Nodup →
      ((l.foldl (fun a e => dictSet a e.1 e.2) acc).map Prod.fst).Nodup
  | [], _, h => h
  | e :: t, acc, h =>
    foldl_dictSet_keys_nodup t (dictSet acc e.1 e.2) (dictSet_keys_nodup acc e.1 e.2 h)

/-- Helper: the dict built from the rows has unique keys. -/
theorem dictOf_keys_nodup (es : Entries) : ((dictOf es).map Prod.fst).Nodup :=
  foldl_dictSet_keys_nodup es [] (by simp)

/-- Helper: `dict.update` preserves key uniqueness of the receiver. -/
theorem dictUpdate_keys_nodup (d other : Entries) (h : (d.map Prod.fst).Nodup) :
    ((dictUpdate d other).map Prod.fst).Nodup :=
  foldl_dictSet_keys_nodup other d h

/-- Helper: every `as_dict` snapshot has unique keys. -/
theorem as_dict_keys_nodup : ∀ s : KVS, ((as_dict s).map Prod.fst).Nodup
  | .null => by simp [as_dict]
  | .seg es none => dictOf_keys_nodup es
  | .seg es (some _) => dictUpdate_keys_nodup _ _ (dictOf_keys_nodup es)

/-- Helper: lookup after `d.update(other)` prefers `other` (whose keys are
unique here) and falls back to `d`. -/
theorem dlookup_dictUpdate :
    ∀ (other d : Entries) (k : String), (other.map Prod.fst).Nodup →
      (dlookup other k = none → dlookup (dictUpdate d other) k = dlookup d k) ∧
      (∀ v, dlookup other k = some v → dlookup (dictUpdate d other) k = some v)
  | [], d, k, _ => by simp [dictUpdate, dlookup]
  | e :: t, d, k, h => by
    rcases List.nodup_cons.mp (by simpa only [List.map_cons] using h) with ⟨hnotin, hnd⟩
    have ih := dlookup_dictUpdate t (dictSet d e.1 e.2) k hnd
    have hstep : dictUpdate d (e :: t) = dictUpdate (dictSet d e.1 e.2) t := rfl
    constructor
    · intro hnone
      by_cases hek : e.1 = k
      · simp [dlookup, hek] at hnone
      · have ht : dlookup t k = none := by simpa [dlookup, hek] using hnone
        rw [hstep, ih.1 ht, dlookup_dictSet]
        have hke : ¬ k = e.1 := fun hkk => hek hkk.symm
        simp [hke]
    · intro v hv
      by_cases hek : e.1 = k
      · have hv2 : e.2 = v := by simpa [dlookup, hek] using hv
        have ht : dlookup t k = none :=
          dlookup_eq_none_of_not_mem t k (by rw [← hek]; exact hnotin)
        rw [hstep, ih.1 ht, dlookup_dictSet]
        simp [hek.symm, hv2]
      · have ht : dlookup t k = some v := by simpa [dlookup, hek] using hv
        rw [hstep, ih.2 v ht]

/-- C2 (amended): the snapshot of a segment with a parent is a
deduplicated mapping (unique keys), and for every key present both locally
and in the ancestor chain the *ancestor* value wins — `as_dict` executes
`this.update(parents)`, so the parent entries overwrite the local ones. -/
theorem as_dict_parent_wins (es : Entries) (p : KVS) (k : String) (vl vp : Option String)
    (hl : dlookup (dictOf es) k = some vl)
    (hp : dlookup (as_dict p) k = some vp) :
    ((as_dict (KVS.seg es (some p))).map Prod.fst).Nodup ∧
    dlookup (as_dict (KVS.seg es (some p))) k = some vp := by
  refine ⟨as_dict_keys_nodup _, ?_⟩
  exact (dlookup_dictUpdate (as_dict p) (dictOf es) k (as_dict_keys_nodup p)).2 vp hp

/-- Witness for C2 (amended) at a one-key child over a one-key parent. -/
theorem as_dict_parent_wins_witness :
    ((as_dict (KVS.seg [("k", some "2")]
      (some (KVS.seg [("k", some "1")] none)))).map Prod.fst).Nodup ∧
    dlookup (as_dict (KVS.seg [("k", some "2")]
      (some (KVS.seg [("k", some "1")] none)))) "k" = some (some "1") :=
  as_dict_parent_wins [("k", some "2")] (KVS.seg [("k", some "1")] none) "k"
    (some "2") (some "1") (by decide) (by decide)

/-- Counterexample to C2 as stated: with `k=2` locally and `k=1` in the
parent, the snapshot maps `k` to the parent value `1`, not to the local
value `2` — the child does not win. -/
theorem as_dict_child_wins_cex :
    dlookup (as_dict (KVS.seg [("k", some "2")]
      (some (KVS.seg [("k", some "1")] none)))) "k" = some (some "1") ∧
    dlookup (as_dict (KVS.seg [("k", some "2")]
      (some (KVS.seg [("k", some "1")] none)))) "k" ≠ some (some "2") :=
  ⟨by decide, by decide⟩

/-! ### Lemmas about `_item`, `upsert` and `eraseP` (C5, C6) -/

/-- Helper: under unique keys, at most one row matches a key. -/
theorem filter_key_len_le_one (es : Entries) (k : String)
    (h : (es.map Prod.fst).Nodup) : (es.filter (fun e => e.1 = k)).length ≤ 1 := by
  induction es with
  | nil => simp
  | cons e t ih =>
    rcases List.nodup_cons.mp (by simpa only [List.map_cons] using h) with ⟨hnotin, hnd⟩
    by_cases he : e.1 = k
    · have ht : t.filter (fun e => e.1 = k) = [] := by
        rw [List.filter_eq_nil_iff]
        intro x hx hxk
        simp only [decide_eq_true_eq] at hxk
        apply hnotin
        rw [he, ← hxk]
        exact List.mem_map_of_mem Prod.fst hx
      simp [List.filter_cons, he, ht]
    · simp only [List.filter_cons, decide_eq_true_eq, he, if_false]
      exact ih hnd

/-- Helper: replacing the value of the (unique) matched row makes the key
filter a singleton carrying the new value. -/
theorem filter_map_replace_key (es : Entries) (k : String) (v : Option String) :
    (es.map (fun e => if e.1 = k then (k, v) else e)).filter (fun e => e.1 = k) =
      (es.filter (fun e => e.1 = k)).map (fun _ => (k, v)) := by
  induction es with
  | nil => rfl
  | cons e t ih =>
    by_cases he : e.1 = k
    · simp [List.filter_cons, he, ih]
    · simp [List.filter_cons, he, ih]

/-- Helper: after the local write, the key filter is exactly the written
row (given unique keys beforehand). -/
theorem filter_upsert_self (es : Entries) (k : String) (v : Option String)
    (h : (es.filter (fun e => e.1 = k)).length ≤ 1) :
    (upsert es k v).filter (fun e => e.1 = k) = [(k, v)] := by
  rcases hf : es.filter (fun e => e.1 = k) with _ | ⟨e1, tl⟩
  · have hup : upsert es k v = es ++ [(k, v)] := by
      unfold upsert _item
      rw [hf]
    rw [hup, List.filter_append, hf]
    simp
  · rcases tl with _ | ⟨e2, tl2⟩
    · have hup : upsert es k v = es.map (fun e => if e.1 = k then (k, v) else e) := by
        unfold upsert _item
        rw [hf]
      rw [hup, filter_map_replace_key, hf]
      rfl
    · rw [hf] at h
      simp at h

/-- Helper: `_item` finds the freshly written value. -/
theorem item_upsert_self (es : Entries) (k : String) (v : Option String)
    (h : (es.filter (fun e => e.1 = k)).length ≤ 1) :
    _item (upsert es k v) k = .ok v := by
  unfold _item
  rw [filter_upsert_self es k v h]

/-- Helper: erasing the single matched row leaves no match. -/
theorem filter_eraseP_key (l : Entries) (k : String)
    (h : (l.filter (fun e => e.1 = k)).length = 1) :
    (l.eraseP (fun e => e.1 = k)).filter (fun e => e.1 = k) = [] := by
  induction l with
  | nil => simp at h
  | cons e t ih =>
    by_cases he : e.1 = k
    · have hdec : (decide (e.1 = k)) = true := by simp [he]
      rw [List.eraseP_cons, hdec]
      simp only [cond_true]
      rw [List.filter_cons] at h
      simp only [decide_eq_true_eq, he, if_true] at h
      have h0 : (t.filter (fun e => decide (e.1 = k))).length = 0 := by
        simpa using h
      exact List.length_eq_zero.mp h0
    · have hdec : (decide (e.1 = k)) = false := by simp [he]
      rw [List.eraseP_cons, hdec]
      simp only [cond_false]
      rw [List.filter_cons] at h ⊢
      simp only [decide_eq_true_eq, he, if_false] at h ⊢
      exact ih h

/-- C5: writing `k=1` into the parent and `k=2` into the child (whose
parent link is the updated parent), reading `k` from the child yields the
local `2`; after deleting `k` from the child, reading `k` falls through to
the parent and yields `1`.  `pE`, `cE` are the prior entries of parent and
child, with the unique-key row invariant; `pp` is the parent link of the
parent itself. -/
theorem kv_shadowing (pE cE : Entries) (pp : Option KVS) (k : String)
    (hp : (pE.map Prod.fst).Nodup) (hc : (cE.map Prod.fst).Nodup) :
    ∃ Pw Cw Cd,
      setItem (.seg pE pp) k (some "1") = .ok Pw ∧
      setItem (.seg cE (some Pw)) k (some "2") = .ok Cw ∧
      getItem Cw k = .ok (some "2") ∧
      delItem Cw k = .ok Cd ∧
      getItem Cd k = .ok (some "1") := by
  have hple := filter_key_len_le_one pE k hp
  have hcle := filter_key_len_le_one cE k hc
  have hip : _item (upsert pE k (some "1")) k = .ok (some "1") :=
    item_upsert_self pE k (some "1") hple
  have hic : _item (upsert cE k (some "2")) k = .ok (some "2") :=
    item_upsert_self cE k (some "2") hcle
  have hfc : (upsert cE k (some "2")).filter (fun e => e.1 = k) = [(k, some "2")] :=
    filter_upsert_self cE k (some "2") hcle
  have hlen1 : ((upsert cE k (some "2")).filter (fun e => e.1 = k)).length = 1 := by
    rw [hfc]
    rfl
  have hid : _item ((upsert cE k (some "2")).eraseP (fun e => e.1 = k)) k =
      .error .doesNotExist := by
    unfold _item
    rw [filter_eraseP_key _ k hlen1]
  refine ⟨.seg (upsert pE k (some "1")) pp,
    .seg (upsert cE k (some "2")) (some (.seg (upsert pE k (some "1")) pp)),
    .seg ((upsert cE k (some "2")).eraseP (fun e => e.1 = k))
      (some (.seg (upsert pE k (some "1")) pp)),
    rfl, rfl, ?_, ?_, ?_⟩
  · simp [getItem, hic]
  · simp [delItem, hic]
  · have hpar : getItem (KVS.seg (upsert pE k (some "1")) pp) k = .ok (some "1") := by
      cases pp <;> simp [getItem, hip]
    simp [getItem, hid, hpar]

/-- Witness for C5 at concrete one-row parent and child segments. -/
theorem kv_shadowing_witness :
    ∃ Pw Cw Cd,
      setItem (.seg [("j", some "0")] none) "k" (some "1") = .ok Pw ∧
      setItem (.seg [("k", some "5")] (some Pw)) "k" (some "2") = .ok Cw ∧
      getItem Cw "k" = .ok (some "2") ∧
      delItem Cw "k" = .ok Cd ∧
      getItem Cd "k" = .ok (some "1") :=
  kv_shadowing [("j", some "0")] [("k", some "5")] none "k" (by decide) (by decide)

/-! ### Lemmas about `kvs_update` (C6) -/

/-- Helper: the local write preserves the unique-key row invariant. -/
theorem upsert_keys_nodup (es : Entries) (k : String) (v : Option String)
    (h : (es.map Prod.fst).Nodup) : ((upsert es k v).map Prod.fst).Nodup := by
  rcases hf : es.filter (fun e => e.1 = k) with _ | ⟨e1, tl⟩
  · have hup : upsert es k v = es ++ [(k, v)] := by
      unfold upsert _item
      rw [hf]
    rw [hup]
    simp only [List.map_append, List.map_cons, List.map_nil, List.nodup_append]
    refine ⟨h, by simp, ?_⟩
    intro a ha hb
    simp only [List.mem_singleton] at hb
    rcases List.mem_map.mp ha with ⟨e, he, hek⟩
    have : e ∈ es.filter (fun e => e.1 = k) :=
      List.mem_filter.mpr ⟨he, by simp [hek, hb]⟩
    rw [hf] at this
    simp at this
  · have hle := filter_key_len_le_one es k h
    rw [hf] at hle
    have htl : tl = [] := by
      cases tl with
      | nil => rfl
      | cons x xs => simp at hle
    subst htl
    have hup : upsert es k v = es.map (fun e => if e.1 = k then (k, v) else e) := by
      unfold upsert _item
      rw [hf]
    rw [hup, keys_map_replace]
    exact h

/-- Helper: lookup after the local write. -/
theorem dlookup_upsert (es : Entries) (k : String) (v : Option String) (q : String)
    (h : (es.map Prod.fst).Nodup) :
    dlookup (upsert es k v) q = if q = k then some v else dlookup es q := by
  rcases hf : es.filter (fun e => e.1 = k) with _ | ⟨e1, tl⟩
  · have hup : upsert es k v = es ++ [(k, v)] := by
      unfold upsert _item
      rw [hf]
    have hany : es.any (fun e => e.1 = k) = false := by
      rw [List.any_eq_false]
      intro x hx
      have := List.filter_eq_nil_iff.mp hf x hx
      simpa using this
    rw [hup, dlookup_append_fresh es k v q hany]
  · have hle := filter_key_len_le_one es k h
    rw [hf] at hle
    have htl : tl = [] := by
      cases tl with
      | nil => rfl
      | cons x xs => simp at hle
    subst htl
    have hup : upsert es k v = es.map (fun e => if e.1 = k then (k, v) else e) := by
      unfold upsert _item
      rw [hf]
    have hany : es.any (fun e => e.1 = k) = true := by
      have he1 : e1 ∈ es.filter (fun e => e.1 = k) := by
        rw [hf]
        exact List.mem_singleton.mpr rfl
      rcases List.mem_filter.mp he1 with ⟨hmem, hpred⟩
      exact List.any_eq_true.mpr ⟨e1, hmem, hpred⟩
    rw [hup, dlookup_map_replace]
    by_cases hq : q = k <;> simp [hq, hany]

/-- Helper: the `kvs_update` assignment loop preserves the row invariant. -/
theorem applyDict_keys_nodup :
    ∀ (d es : Entries), (es.map Prod.fst).Nodup →
      ((applyDict es d).map Prod.fst).Nodup
  | [], _, h => h
  | e :: t, es, h =>
    applyDict_keys_nodup t (upsert es e.1 e.2) (upsert_keys_nodup es e.1 e.2 h)

/-- Helper: lookup after the `kvs_update` assignment loop — the dict wins
on its keys, everything else is preserved. -/
theorem dlookup_applyDict :
    ∀ (d es : Entries) (k : String), (es.map Prod.fst).Nodup → (d.map Prod.fst).Nodup →
      (dlookup d k = none → dlookup (applyDict es d) k = dlookup es k) ∧
      (∀ v, dlookup d k = some v → dlookup (applyDict es d) k = some v)
  | [], es, k, _, _ => by simp [applyDict, dlookup]
  | e :: t, es, k, hes, hd => by
    rcases List.nodup_cons.mp (by simpa only [List.map_cons] using hd) with ⟨hnotin, hnd⟩
    have hes2 := upsert_keys_nodup es e.1 e.2 hes
    have ih := dlookup_applyDict t (upsert es e.1 e.2) k hes2 hnd
    have hstep : applyDict es (e :: t) = applyDict (upsert es e.1 e.2) t := rfl
    constructor
    · intro hnone
      by_cases hek : e.1 = k
      · simp [dlookup, hek] at hnone
      · have ht : dlookup t k = none := by simpa [dlookup, hek] using hnone
        rw [hstep, ih.1 ht, dlookup_upsert es e.1 e.2 k hes]
        have hke : ¬ k = e.1 := fun hkk => hek hkk.symm
        simp [hke]
    · intro v hv
      by_cases hek : e.1 = k
      · have hv2 : e.2 = v := by simpa [dlookup, hek] using hv
        have ht : dlookup t k = none :=
          dlookup_eq_none_of_not_mem t k (by rw [← hek]; exact hnotin)
        rw [hstep, ih.1 ht, dlookup_upsert es e.1 e.2 k hes]
        simp [hek.symm, hv2]
      · have ht : dlookup t k = some v := by simpa [dlookup, hek] using hv
        rw [hstep, ih.2 v ht]

/-- Helper: after replacing the row of an existing namespace, reading that
namespace yields the new entries. -/
theorem storeEntries_map_replace (n : String) (es : Entries) :
    ∀ st : Store, st.any (fun e => e.1 = n) = true →
      storeEntries (st.map (fun e => if e.1 = n then (n, es) else e)) n = es := by
  intro st
  induction st with
  | nil => simp
  | cons e t ih =>
    intro hany
    by_cases he : e.1 = n
    · simp [storeEntries, he]
    · simp only [List.any_cons] at hany
      have ht : t.any (fun e => e.1 = n) = true := by
        rcases Bool.or_eq_true_iff.mp hany with h1 | h1
        · exact absurd (by simpa using h1) he
        · exact h1
      simp [storeEntries, he, ih ht]

/-- Helper: after appending a fresh namespace row, reading that namespace
yields the new entries. -/
theorem storeEntries_append_fresh (n : String) (es : Entries) :
    ∀ st : Store, st.any (fun e => e.1 = n) = false →
      storeEntries (st ++ [(n, es)]) n = es := by
  intro st
  induction st with
  | nil => simp [storeEntries]
  | cons e t ih =>
    intro hany
    simp only [List.any_cons, Bool.or_eq_false_iff] at hany
    have he : ¬ e.1 = n := by simpa using hany.1
    simp [storeEntries, he, ih hany.2]

/-- Helper: reading back the namespace just written. -/
theorem storeEntries_setEntries (st : Store) (n : String) (es : Entries) :
    storeEntries (storeSetEntries st n es) n = es := by
  unfold storeSetEntries
  by_cases hany : st.any (fun e => e.1 = n) = true
  · rw [if_pos hany]
    exact storeEntries_map_replace n es st hany
  · rw [if_neg hany]
    exact storeEntries_append_fresh n es st (Bool.eq_false_iff.mpr hany)

/-- C6: updating an existing namespace under `RAISE` fails with the
namespace-already-exists error (the store is returned unmodified — the
raise happens before any write); under `CLEAR` the local entries are erased
first and the result holds exactly the dict entries; under `UPDATE` the
dict is merged in with the new values winning on key collision and the
untouched keys preserved.  `hst`/`hd` are the unique-key invariants of the
stored row set and of the Python dict argument. -/
theorem kvs_update_policies (st : Store) (n : String) (d : Entries)
    (hex : kvs_exists st (some n) = true)
    (hst : ((storeEntries st n).map Prod.fst).Nodup)
    (hd : (d.map Prod.fst).Nodup) :
    kvs_update st (some n) (some d) (some RAISE) =
      .error ("namespace " ++ n ++ " already exists") ∧
    (∃ st1, kvs_update st (some n) (some d) (some CLEAR) = .ok st1 ∧
      ∀ k, dlookup (storeEntries st1 n) k = dlookup d k) ∧
    (∃ st2, kvs_update st (some n) (some d) (some UPDATE) = .ok st2 ∧
      (∀ k v, dlookup d k = some v → dlookup (storeEntries st2 n) k = some v) ∧
      (∀ k, dlookup d k = none →
        dlookup (storeEntries st2 n) k = dlookup (storeEntries st n) k)) := by
  refine ⟨?_, ?_, ?_⟩
  · simp [kvs_update, RAISE, hex]
  · have h1 : storeEntries (storeSetEntries st n []) n = [] :=
      storeEntries_setEntries st n []
    refine ⟨storeSetEntries (storeSetEntries st n []) n (applyDict [] d), ?_, ?_⟩
    · simp [kvs_update, RAISE, CLEAR, hex, h1]
    · intro k
      rw [storeEntries_setEntries]
      have hap := dlookup_applyDict d [] k (by simp) hd
      cases hdk : dlookup d k with
      | none => exact hap.1 hdk
      | some v => exact hap.2 v hdk
  · refine ⟨storeSetEntries st n (applyDict (storeEntries st n) d), ?_, ?_, ?_⟩
    · simp [kvs_update, RAISE, CLEAR, UPDATE, hex]
    · intro k v hkv
      rw [storeEntries_setEntries]
      exact (dlookup_applyDict d (storeEntries st n) k hst hd).2 v hkv
    · intro k hk
      rw [storeEntries_setEntries]
      exact (dlookup_applyDict d (storeEntries st n) k hst hd).1 hk

/-- Witness for C6 at a concrete store with one existing namespace. -/
theorem kvs_update_policies_witness :
    kvs_update [("ns", [("x", some "1")])] (some "ns")
        (some [("x", some "2"), ("y", some "3")]) (some RAISE) =
      .error ("namespace " ++ "ns" ++ " already exists") ∧
    (∃ st1, kvs_update [("ns", [("x", some "1")])] (some "ns")
        (some [("x", some "2"), ("y", some "3")]) (some CLEAR) = .ok st1 ∧
      ∀ k, dlookup (storeEntries st1 "ns") k =
        dlookup [("x", some "2"), ("y", some "3")] k) ∧
    (∃ st2, kvs_update [("ns", [("x", some "1")])] (some "ns")
        (some [("x", some "2"), ("y", some "3")]) (some UPDATE) = .ok st2 ∧
      (∀ k v, dlookup [("x", some "2"), ("y", some "3")] k = some v →
        dlookup (storeEntries st2 "ns") k = some v) ∧
      (∀ k, dlookup [("x", some "2"), ("y", some "3")] k = none →
        dlookup (storeEntries st2 "ns") k =
          dlookup (storeEntries [("ns", [("x", some "1")])] "ns") k)) :=
  kvs_update_policies [("ns", [("x", some "1")])] "ns"
    [("x", some "2"), ("y", some "3")] (by decide) (by decide) (by decide)

/-! ### Dispatch lemmas (C4) -/

/-- Helper: the head of a `dropWhile` residue falsifies the predicate. -/
theorem head_dropWhile_false {α : Type} (p : α → Bool) :
    ∀ (l : List α) (c : α) (t : List α), l.dropWhile p = c :: t → p c = false := by
  intro l
  induction l with
  | nil =>
    intro c t h
    simp [List.dropWhile] at h
  | cons a l2 ih =>
    intro c t h
    rw [List.dropWhile_cons] at h
    by_cases ha : p a = true
    · rw [if_pos ha] at h
      exact ih c t h
    · rw [if_neg ha] at h
      injection h with h1 h2
      rw [← h1]
      exact Bool.eq_false_iff.mpr ha

/-- C4 (amended): the dispatcher splits the text into a maximal alphabetic
prefix `sub` and the rest; the remainder handed to the parser is the rest
after the *single* leading non-alphabetic character (when there is one —
the split consumes one character, not a whole run); `run_<sub.lower()>` is
invoked when such a handler is registered, and otherwise `unknown_command`
is invoked with the original (uncased) subcommand and that remainder. -/
theorem dispatch_spec (handlers : List (List Char)) (text : List Char) :
    ∃ sub rem rest,
      splitCmd text = (sub, rem) ∧
      sub.all isCmdAlpha = true ∧
      text = sub ++ rest ∧
      ((rest = [] ∧ rem = []) ∨ (∃ c, rest = c :: rem ∧ isCmdAlpha c = false)) ∧
      ((sub.map Char.toLower) ∈ handlers →
        dispatch handlers text = .handledBy (sub.map Char.toLower) rem) ∧
      ((sub.map Char.toLower) ∉ handlers →
        dispatch handlers text = .unknownCmd sub rem) := by
  refine ⟨text.takeWhile isCmdAlpha, (text.dropWhile isCmdAlpha).drop 1,
    text.dropWhile isCmdAlpha, rfl, ?_, ?_, ?_, ?_, ?_⟩
  · rw [List.all_eq_true]
    intro x hx
    exact List.mem_takeWhile_imp hx
  · exact (List.takeWhile_append_dropWhile isCmdAlpha text).symm
  · cases hrest : text.dropWhile isCmdAlpha with
    | nil =>
      left
      exact ⟨rfl, rfl⟩
    | cons c t =>
      right
      exact ⟨c, rfl, head_dropWhile_false isCmdAlpha text c t hrest⟩
  · intro hin
    simp [dispatch, splitCmd, hin]
  · intro hnin
    simp [dispatch, splitCmd, hnin]

/-- Witness for C4 (amended): `ECHOO x` with only a `help` handler routes
to the unknown-command handler, carrying the uppercased original
subcommand and the remainder. -/
theorem dispatch_spec_witness :
    dispatch [['h', 'e', 'l', 'p']] ['E', 'C', 'H', 'O', 'O', ' ', 'x'] =
      .unknownCmd ['E', 'C', 'H', 'O', 'O'] ['x'] := by
  obtain ⟨sub, rem, rest, hsplit, _, _, _, _, hunk⟩ :=
    dispatch_spec [['h', 'e', 'l', 'p']] ['E', 'C', 'H', 'O', 'O', ' ', 'x']
  have hconc : (sub, rem) = (['E', 'C', 'H', 'O', 'O'], ['x']) := by
    rw [← hsplit]
    decide
  injection hconc with hs hr
  subst hs
  subst hr
  exact hunk (by decide)

/-- Counterexample to C4 as stated: the split consumes a single
non-alphabetic character, not the first *run* — on `a--b` the code primes
the parser with `-b`, while splitting on the run would leave `b`; the
spec-worded run-splitting is a different function. -/
theorem dispatch_run_split_cex :
    splitCmd ['a', '-', '-', 'b'] = (['a'], ['-', 'b']) ∧
    splitCmdSpecRun ['a', '-', '-', 'b'] = (['a'], ['b']) ∧
    dispatch [] ['a', '-', '-', 'b'] = .unknownCmd ['a'] ['-', 'b'] ∧
    (['-', 'b'] : List Char) ≠ ['b'] :=
  ⟨by decide, by decide, by decide, by decide⟩

/-! ### Parser lemmas (C7) -/

/-- Helper: after the `--` separator everything is positional. -/
theorem parse_args_afterSep (flags : List (List Char)) :
    ∀ ts, parse_args flags ts true = .ok ts
  | [] => rfl
  | t :: ts => by
    simp [parse_args, parse_args_afterSep flags ts]

/-- Helper: a successful `argparse` run collects exactly the tokens not
consumed by a declared option (and the tokens behind a `--` separator), in
order, into `posn`. -/
theorem parse_args_ok_posn (flags : List (List Char)) :
    ∀ (ts : List (List Char)) (p : List (List Char)),
      parse_args flags ts false = .ok p →
      p = (ts.takeWhile (fun t => !decide (t = ['-', '-']))).filter
            (fun t => !(isOptionTok t && decide (t ∈ flags)))
          ++ ((ts.dropWhile (fun t => !decide (t = ['-', '-']))).drop 1)
  | [], p, h => by
    cases h
    rfl
  | t :: ts, p, h => by
    by_cases hsep : t = ['-', '-']
    · have h2 : parse_args flags ts true = .ok p := by
        simpa [parse_args, hsep] using h
      rw [parse_args_afterSep flags ts] at h2
      injection h2 with hp
      simp [List.takeWhile_cons, List.dropWhile_cons, hsep, hp]
    · by_cases hopt : isOptionTok t = true
      · by_cases hmem : t ∈ flags
        · have h2 : parse_args flags ts false = .ok p := by
            simpa [parse_args, hsep, hopt, hmem] using h
          have hp := parse_args_ok_posn flags ts p h2
          simp [List.takeWhile_cons, List.dropWhile_cons, List.filter_cons,
            hsep, hopt, hmem, hp]
        · exfalso
          have h2 : (if t = ['-', 'h'] ∨ t = "--help".toList then
                (Except.error [] : Except (List Char) (List (List Char)))
              else .error ("unrecognized arguments: ".toList ++ t)) = .ok p := by
            simpa [parse_args, hsep, hopt, hmem] using h
          split at h2 <;> simp at h2
      · cases hrec : parse_args flags ts false with
        | ok pr =>
          have hp := parse_args_ok_posn flags ts pr hrec
          have h2 : p = t :: pr := by
            have := h
            simp [parse_args, hsep, hopt, hrec] at this
            exact this.symm
          simp [List.takeWhile_cons, List.dropWhile_cons, List.filter_cons,
            hsep, hopt, h2, hp]
        | error e =>
          simp [parse_args, hsep, hopt, hrec] at h

/-- C7 (amended): `SlackViewBase.parse` never propagates a parse failure —
it always returns a result object; on failure that object has `error=True`
and the recorded message, but carries *no* `posn` attribute (reading it
raises `AttributeError` rather than seeing an empty default); on success it
has `error=False` and `posn` holds every token not consumed by a declared
option, in order. -/
theorem parse_spec (flags : List (List Char)) (remainder : List Char) :
    ((SlackViewBase.parse flags remainder).error = true →
      (SlackViewBase.parse flags remainder).errmsg ≠ none ∧
      (SlackViewBase.parse flags remainder).posn = none) ∧
    ((SlackViewBase.parse flags remainder).error = false →
      (SlackViewBase.parse flags remainder).errmsg = none ∧
      (SlackViewBase.parse flags remainder).posn =
        some (((splitParams remainder).takeWhile (fun t => !decide (t = ['-', '-']))).filter
            (fun t => !(isOptionTok t && decide (t ∈ flags))) ++
          (((splitParams remainder).dropWhile (fun t => !decide (t = ['-', '-']))).drop 1))) := by
  cases hpa : parse_args flags (splitParams remainder) false with
  | ok p =>
    have hobj : SlackViewBase.parse flags remainder =
        { error := false, posn := some p } := by
      unfold SlackViewBase.parse
      rw [hpa]
    rw [hobj]
    constructor
    · intro h
      exact absurd h (by simp)
    · intro _
      exact ⟨rfl, by rw [parse_args_ok_posn flags (splitParams remainder) p hpa]⟩
  | error m =>
    have hobj : SlackViewBase.parse flags remainder =
        { error := true, errmsg := some m } := by
      unfold SlackViewBase.parse
      rw [hpa]
    rw [hobj]
    constructor
    · intro _
      exact ⟨by simp, rfl⟩
    · intro h
      exact absurd h (by simp)

/-- Witness for C7 (amended): a well-formed remainder parses with
`error=False` and its tokens collected in order. -/
theorem parse_spec_witness :
    (SlackViewBase.parse [] ("and remainder".toList)).error = false ∧
    (SlackViewBase.parse [] ("and remainder".toList)).posn =
      some [['a', 'n', 'd'], ['r', 'e', 'm', 'a', 'i', 'n', 'd', 'e', 'r']] := by
  have h := (parse_spec [] ("and remainder".toList)).2 (by decide)
  refine ⟨by decide, ?_⟩
  rw [h.2]
  decide

/-- Counterexample to C7 as stated: on the malformed remainder `-x foo`
the result object has the error flag and message, but a handler reading
the positional field does not see an empty default — the attribute is
absent (`none`), so the access fails instead. -/
theorem parse_error_fields_cex :
    (SlackViewBase.parse [] ("-x foo".toList)).error = true ∧
    (SlackViewBase.parse [] ("-x foo".toList)).errmsg =
      some ("unrecognized arguments: -x".toList) ∧
    (SlackViewBase.parse [] ("-x foo".toList)).posn = none ∧
    (SlackViewBase.parse [] ("-x foo".toList)).posn ≠ some [] :=
  ⟨by decide, by decide, by decide, by decide⟩
